import Mathlib

/-!
Verification of the koishi-plugin-glyph font service, as a shallow embedding of
the code in src/index.ts (FontsService), src/page.ts (GlyphProvider and the
TTL-managed FontsService variant).  Filesystem and HTTP primitives are modelled
by an oracle (`World`) giving each primitive call its outcome; state is the
in-memory font map, the published font-name list, and the files of the font
root directory.
-/

namespace Glyph

/-- Alphabet of base64 encoding (RFC 4648), as used by Node Buffer base64. -/
def b64Alphabet : List Char :=
  "ABCDEFGHIJKLMNOPQRSTUVWXYZabcdefghijklmnopqrstuvwxyz0123456789+/".toList

/-- Character of a list at an index (default 'A'; all uses are in bounds). -/
def idxNth : List Char → Nat → Char
  | [], _ => 'A'
  | c :: _, 0 => c
  | _ :: t, n + 1 => idxNth t n

/-- Index of a character in a list (length of the list if absent). -/
def idxOf : List Char → Char → Nat
  | [], _ => 0
  | a :: t, c => if a = c then 0 else idxOf t c + 1

/-- Character of the base64 alphabet at an index. -/
def b64Char (n : Nat) : Char := idxNth b64Alphabet n

/-- Six-bit value of a base64 alphabet character. -/
def b64Val (c : Char) : Nat := idxOf b64Alphabet c

/-- Base64 encoding of a byte list (each element below 256), with padding,
as produced by Node Buffer.toString with base64. -/
def base64Encode : List Nat → List Char
  | [] => []
  | [a] => [b64Char (a / 4), b64Char (a % 4 * 16), '=', '=']
  | [a, b] => [b64Char (a / 4), b64Char (a % 4 * 16 + b / 16), b64Char (b % 16 * 4), '=']
  | a :: b :: c :: rest =>
      b64Char (a / 4) :: b64Char (a % 4 * 16 + b / 16) ::
        b64Char (b % 16 * 4 + c / 64) :: b64Char (c % 64) :: base64Encode rest

/-- Base64 decoding of a character list; models Node Buffer.from with base64 on
well-formed base64 text (four-character groups, padding at the end). -/
def base64Decode : List Char → List Nat
  | c1 :: c2 :: c3 :: c4 :: rest =>
      let v1 := b64Val c1
      let v2 := b64Val c2
      if c3 = '=' then [v1 * 4 + v2 / 16]
      else if c4 = '=' then [v1 * 4 + v2 / 16, v2 % 16 * 16 + b64Val c3 / 4]
      else (v1 * 4 + v2 / 16) :: (v2 % 16 * 16 + b64Val c3 / 4) ::
        (b64Val c3 % 4 * 64 + b64Val c4) :: base64Decode rest
  | _ => []

/-- Base64 encoding of a byte list as a string (buffer.toString with base64). -/
def base64String (bs : List Nat) : String := String.mk (base64Encode bs)


/-- JS String.prototype.trim: remove leading and trailing whitespace
characters (space, tab, carriage return, line feed cover every input of
interest here). -/
def jsTrim (s : String) : String :=
  String.mk (((s.toList.dropWhile Char.isWhitespace).reverse.dropWhile
    Char.isWhitespace).reverse)

/-- JS String.prototype.toLowerCase, for the ASCII range that file extensions
use: lower-case each character. -/
def toLowerStr (s : String) : String := String.mk (s.toList.map Char.toLower)

/-- Node path.extname on a plain file name (no directory separators): the
suffix starting at the last dot, empty when there is no dot or when the last
dot is the first character of the name. -/
def extname (s : String) : String :=
  let rev := s.toList.reverse
  let pre := rev.takeWhile (fun c => c ≠ '.')
  if pre.length = rev.length then ""
  else if pre.length + 1 = rev.length then ""
  else String.mk ('.' :: pre.reverse)

/-- Node path.basename with an extension argument on a plain file name: the
extension suffix is stripped when it is a proper, nonempty suffix. -/
def basenameExt (file ext : String) : String :=
  if ext ≠ "" ∧ ext ≠ file ∧ ext.toList.isSuffixOf file.toList then
    String.mk (file.toList.take (file.toList.length - ext.toList.length))
  else file

/-- SUPPORTED_FORMATS from src/index.ts lines 35-47 (same list in
src/page.ts lines 24-27 and 203-215). -/
def SUPPORTED_FORMATS : List String :=
  [".ttf", ".otf", ".woff", ".woff2", ".ttc",
   ".eot", ".svg", ".dfont", ".fon", ".pfa", ".pfb"]

/-- Association-list lookup keyed by strings (models JS Map get and
own-property lookup of a string-keyed object literal). -/
def alookup {α : Type} : List (String × α) → String → Option α
  | [], _ => none
  | (a, b) :: t, k => if a = k then some b else alookup t k

/-- Insert or replace for an association list keyed by strings: replaces in
place when the key exists, appends otherwise (JS Map set preserves insertion
order on replacement). -/
def aset {α : Type} (m : List (String × α)) (k : String) (v : α) : List (String × α) :=
  if m.any (fun p => p.1 = k) then m.map (fun p => if p.1 = k then (k, v) else p)
  else m ++ [(k, v)]

/-- Removal of a key from an association list (JS Map delete). -/
def adelete {α : Type} (m : List (String × α)) (k : String) : List (String × α) :=
  m.filter (fun p => p.1 ≠ k)

/-- Extension-to-MIME table of FontsService.getMimeType
(src/index.ts lines 180-195, src/page.ts lines 485-500). -/
def mimeTypesTable : List (String × String) :=
  [(".ttf", "font/ttf"), (".otf", "font/otf"), (".woff", "font/woff"),
   (".woff2", "font/woff2"), (".ttc", "font/collection"),
   (".eot", "application/vnd.ms-fontobject"), (".svg", "image/svg+xml"),
   (".dfont", "application/x-dfont"), (".fon", "application/octet-stream"),
   (".pfa", "application/x-font-type1"), (".pfb", "application/x-font-type1")]

/-- FontsService.getMimeType: MIME type of a lower-cased extension, with the
generic default for unknown extensions.  All table values are nonempty
strings, so the JS truthiness fallback is an ordinary lookup default. -/
def getMimeType (ext : String) : String :=
  (alookup mimeTypesTable (toLowerStr ext)).getD "application/octet-stream"

/-- MIME-to-extension table of FontsService.getExtensionFromMimeType
(src/index.ts lines 329-343, src/page.ts lines 700-714); a generic
octet-stream response defaults to the ttf extension. -/
def mimeToExtTable : List (String × String) :=
  [("font/ttf", ".ttf"), ("font/otf", ".otf"), ("font/woff", ".woff"),
   ("font/woff2", ".woff2"), ("font/collection", ".ttc"),
   ("application/vnd.ms-fontobject", ".eot"), ("image/svg+xml", ".svg"),
   ("application/x-dfont", ".dfont"), ("application/octet-stream", ".ttf"),
   ("application/x-font-type1", ".pfa")]

/-- FontsService.getExtensionFromMimeType: extension inferred from a response
MIME type, absent for an unknown type.  All table values are nonempty strings,
so the JS truthiness null fallback is an ordinary lookup miss. -/
def getExtensionFromMimeType (mimeType : String) : Option String :=
  alookup mimeToExtTable mimeType

/-- FontInfo record (src/page.ts lines 219-225); the src/index.ts variant
(lines 51-56) is the same record without the lastAccess field.  Bytes are kept
as the base64 data URL exactly as the code does. -/
structure FontInfo where
  name : String
  dataUrl : String
  format : String
  size : Nat
  lastAccess : Nat
deriving Repr, DecidableEq

/-- In-memory font map: font name to FontInfo, in insertion order. -/
abbrev FontMap := List (String × FontInfo)

/-- Files of the font root directory: file name to byte content, in directory
order. -/
abbrev Fs := List (String × List Nat)

/-- Observable state of the service: the font map, the published reactive
fontNames list, and the files of the font root. -/
structure ServiceState where
  fontMap : FontMap
  fontNames : List String
  fs : Fs
deriving Repr, DecidableEq

/-- One filesystem or network primitive call, recorded in an effect trace. -/
inductive Eff where
  | access (path : String)
  | stat (path : String)
  | read (path : String)
  | write (path : String)
  | mkdir
  | readdir
  | unlink (path : String)
  | http (url : String)
deriving Repr, DecidableEq

/-- Result of an HTTP byte fetch: declared MIME type and body bytes. -/
structure HttpResponse where
  type : String
  data : List Nat
deriving Repr, DecidableEq

/-- Oracle fixing the outcome of every filesystem and network primitive:
none or false means the primitive throws.  accessOk is the result of the
fs.access existence probe (independent of file content, so a probe may pass
for a file that then fails to read); statRes gives size and isDirectory;
now is Date.now(). -/
structure World where
  accessOk : String → Bool
  statRes : String → Option (Nat × Bool)
  readRes : String → Option (List Nat)
  mkdirOk : Bool
  writeOk : String → Bool
  readdirOk : Bool
  unlinkOk : String → Bool
  http : String → Option HttpResponse
  now : Nat

/-- Outcome of a checkFont call: the returned boolean, the state after the
call, and the trace of primitive calls made. -/
structure CheckOut where
  result : Bool
  state : ServiceState
  trace : List Eff
deriving Repr, DecidableEq

/-- FontsService.loadSingleFont (src/page.ts lines 666-697; src/index.ts
lines 296-326 is identical except that FontInfo has no lastAccess): stat and
read the file, build the data URL record, store it, republish fontNames as
the map keys; a stat or read failure is logged and rethrown. -/
def loadSingleFont (w : World) (st : ServiceState) (tr : List Eff) (filePath : String) :
    Except Unit ServiceState × List Eff :=
  let file := filePath
  let ext := toLowerStr (extname file)
  let fontName := basenameExt file ext
  match w.statRes filePath with
  | none => (.error (), tr ++ [.stat filePath])
  | some (size, _) =>
    match w.readRes filePath with
    | none => (.error (), tr ++ [.stat filePath, .read filePath])
    | some buffer =>
      let dataUrl := "data:" ++ getMimeType ext ++ ";base64," ++ base64String buffer
      let info : FontInfo := ⟨fontName, dataUrl, ext.drop 1, size, w.now⟩
      let fontMap := aset st.fontMap fontName info
      let fontNames := fontMap.map Prod.fst
      (.ok { st with fontMap := fontMap, fontNames := fontNames },
        tr ++ [.stat filePath, .read filePath])

/-- Extension probe loop of FontsService.checkFont (src/index.ts lines
231-242, src/page.ts lines 600-611): for each supported extension, probe
fs.access; when the probe passes, loadSingleFont and return its state on
success; any failure in the try block is caught and the loop continues with
the next extension. -/
def checkFontScan (w : World) (fontName : String) (st : ServiceState) (tr : List Eff) :
    List String → Option ServiceState × List Eff
  | [] => (none, tr)
  | ext :: rest =>
    let filePath := fontName ++ ext
    let tr1 := tr ++ [Eff.access filePath]
    if w.accessOk filePath then
      match loadSingleFont w st tr1 filePath with
      | (.ok st2, tr2) => (some st2, tr2)
      | (.error _, tr2) => checkFontScan w fontName st tr2 rest
    else
      checkFontScan w fontName st tr1 rest

/-- Download branch of FontsService.checkFont (src/index.ts lines 247-293,
src/page.ts lines 616-663): fetch, infer the extension from the MIME type
(unknown type yields false), mkdir, write the bytes, store the record and
republish fontNames as the map keys; every failure is caught and yields
false. -/
def downloadFont (w : World) (fontName : String) (st : ServiceState) (tr : List Eff)
    (downloadUrl : String) : CheckOut :=
  let tr1 := tr ++ [Eff.http downloadUrl]
  match w.http downloadUrl with
  | none => ⟨false, st, tr1⟩
  | some response =>
    match getExtensionFromMimeType response.type with
    | none => ⟨false, st, tr1⟩
    | some ext =>
      let fileName := fontName ++ ext
      let filePath := fileName
      let tr2 := tr1 ++ [Eff.mkdir]
      if w.mkdirOk then
        let tr3 := tr2 ++ [Eff.write filePath]
        if w.writeOk filePath then
          let fs := aset st.fs filePath response.data
          let dataUrl := "data:" ++ response.type ++ ";base64," ++ base64String response.data
          let info : FontInfo := ⟨fontName, dataUrl, ext.drop 1, response.data.length, w.now⟩
          let fontMap := aset st.fontMap fontName info
          let fontNames := fontMap.map Prod.fst
          ⟨true, ⟨fontMap, fontNames, fs⟩, tr3⟩
        else ⟨false, st, tr3⟩
      else ⟨false, st, tr2⟩

/-- FontsService.checkFont (src/page.ts lines 584-663; src/index.ts lines
219-293 is identical except that the cache hit does not refresh lastAccess):
the sentinel name is always available; then a cache hit returns true; then
the extension probe loop; then the download branch. -/
def checkFont (w : World) (st : ServiceState) (fontName downloadUrl : String) : CheckOut :=
  if jsTrim fontName = "无" then ⟨true, st, []⟩
  else
    match alookup st.fontMap fontName with
    | some info =>
      let info2 := { info with lastAccess := w.now }
      ⟨true, { st with fontMap := aset st.fontMap fontName info2 }, []⟩
    | none =>
      match checkFontScan w fontName st [] SUPPORTED_FORMATS with
      | (some st2, tr) => ⟨true, st2, tr⟩
      | (none, tr) => downloadFont w fontName st tr downloadUrl

/-- Directory scan body of FontsService.loadFonts (src/index.ts lines
112-160, src/page.ts lines 416-465): skip unsupported extensions and
directories; a stat failure propagates to the outer catch and stops the scan;
a read failure is caught by the inner catch and the scan continues. -/
def scanFonts (w : World) (m : FontMap) : List String → FontMap
  | [] => m
  | file :: rest =>
    let ext := toLowerStr (extname file)
    if SUPPORTED_FORMATS.contains ext then
      match w.statRes file with
      | none => m
      | some (size, isDir) =>
        if isDir then scanFonts w m rest
        else
          match w.readRes file with
          | none => scanFonts w m rest
          | some buffer =>
            let fontName := basenameExt file ext
            let dataUrl := "data:" ++ getMimeType ext ++ ";base64," ++ base64String buffer
            let info : FontInfo := ⟨fontName, dataUrl, ext.drop 1, size, w.now⟩
            scanFonts w (aset m fontName info) rest
    else scanFonts w m rest

/-- Finally block of FontsService.loadFonts (src/index.ts lines 163-176,
src/page.ts lines 468-481): publish the map keys prefixed with the sentinel,
or the two sentinel placeholders when no font was loaded. -/
def finalizeNames (m : FontMap) : List String :=
  let fontNames := m.map Prod.fst
  if fontNames = [] then ["无", "无 "] else "无" :: fontNames

/-- FontsService.loadFonts (src/index.ts lines 112-177, src/page.ts lines
416-482): clear the map, rescan the whole directory (an unreadable directory
leaves the cleared map), and republish fontNames through the finally block. -/
def loadFonts (w : World) (st : ServiceState) : ServiceState :=
  let m := if w.readdirOk then scanFonts w [] (st.fs.map Prod.fst) else []
  { st with fontMap := m, fontNames := finalizeNames m }

/-- FontsService.cleanupUnusedFonts (src/page.ts lines 367-384): collect the
names whose lastAccess is more than fontTTL minutes before now, then delete
each from the map. -/
def cleanupUnusedFonts (w : World) (fontTTL : Nat) (st : ServiceState) : ServiceState :=
  let ttl : Int := (fontTTL : Int) * 60 * 1000
  let toDelete := (st.fontMap.filter
    (fun p => (w.now : Int) - (p.2.lastAccess : Int) > ttl)).map Prod.fst
  { st with fontMap := toDelete.foldl (fun m n => adelete m n) st.fontMap }

/-- FontsService.getFontInfo (src/page.ts lines 503-510): on a hit, refresh
lastAccess (an in-place record mutation) and return the record; on a miss,
return absent. -/
def getFontInfo (w : World) (st : ServiceState) (name : String) :
    Option FontInfo × ServiceState :=
  match alookup st.fontMap name with
  | none => (none, st)
  | some info =>
    let info2 := { info with lastAccess := w.now }
    (some info2, { st with fontMap := aset st.fontMap name info2 })

/-- Synchronous disk scan of FontsService.getFontDataUrl (src/page.ts lines
531-568): find the first directory entry whose stripped name matches and
whose extension is supported; load it into the map and return its data URL; a
stat or read failure returns absent without continuing the scan. -/
def getFontDataUrlScan (w : World) (st : ServiceState) (name : String) :
    List String → Option String × ServiceState
  | [] => (none, st)
  | file :: rest =>
    let ext := toLowerStr (extname file)
    let fontName := basenameExt file ext
    if fontName = name ∧ SUPPORTED_FORMATS.contains ext then
      match w.statRes file, w.readRes file with
      | some (size, _), some buffer =>
        let dataUrl := "data:" ++ getMimeType ext ++ ";base64," ++ base64String buffer
        let info : FontInfo := ⟨fontName, dataUrl, ext.drop 1, size, w.now⟩
        (some dataUrl, { st with fontMap := aset st.fontMap fontName info })
      | _, _ => (none, st)
    else getFontDataUrlScan w st name rest

/-- FontsService.getFontDataUrl (src/page.ts lines 518-576): on a hit,
refresh lastAccess and return the data URL; on a miss, synchronously scan the
directory and load the first matching file, returning absent when the
directory cannot be read, no entry matches, or the load fails. -/
def getFontDataUrl (w : World) (st : ServiceState) (name : String) :
    Option String × ServiceState :=
  match alookup st.fontMap name with
  | some info =>
    let info2 := { info with lastAccess := w.now }
    (some info2.dataUrl, { st with fontMap := aset st.fontMap name info2 })
  | none =>
    if w.readdirOk then getFontDataUrlScan w st name (st.fs.map Prod.fst)
    else (none, st)

/-- Matching predicate of GlyphProvider.deleteFont (src/page.ts lines
121-125): the stripped name equals the requested font name and the lower-cased
extension is supported. -/
def fontFileMatches (fontName file : String) : Bool :=
  let ext := toLowerStr (extname file)
  (basenameExt file ext = fontName) && SUPPORTED_FORMATS.contains ext

/-- Sequential unlink loop of GlyphProvider.deleteFont (src/page.ts lines
128-132): remove each file in order; the first unlink failure stops the loop
with the files removed so far. -/
def unlinkAll (w : World) : Fs → List String → Bool × Fs
  | fs, [] => (true, fs)
  | fs, f :: rest =>
    if w.unlinkOk f then unlinkAll w (fs.filter (fun p => p.1 ≠ f)) rest
    else (false, fs)

/-- GlyphProvider.deleteFont (src/page.ts lines 115-137): list the directory,
filter the matching files, unlink each; a readdir or unlink failure is logged
and rethrown (the boolean is false when the call threw). -/
def deleteFont (w : World) (st : ServiceState) (fontName : String) : Bool × ServiceState :=
  if w.readdirOk then
    let files := st.fs.map Prod.fst
    let matchingFiles := files.filter (fontFileMatches fontName)
    let r := unlinkAll w st.fs matchingFiles
    (r.1, { st with fs := r.2 })
  else (false, st)

/-- Literal-prefix stripper over character lists, used to model the anchored
parts of the upload payload regular expression. -/
def dropLit : List Char → List Char → Option (List Char)
  | [], cs => some cs
  | _ :: _, [] => none
  | p :: ps, c :: cs => if c = p then dropLit ps cs else none

/-- Line terminators that the regular expression dot does not match. -/
def isLineTerm (c : Char) : Bool :=
  c = '\n' || c = '\r' || c = Char.ofNat 0x2028 || c = Char.ofNat 0x2029

/-- Parse of the upload payload against the anchored regular expression
matching a data URL (src/page.ts line 151): the literal data prefix, a
nonempty MIME group of non-semicolon characters, the literal base64 marker,
and a nonempty data group of non-line-terminator characters reaching the end
of the string.  Returns the MIME group and the data group. -/
def parseDataUrl (s : String) : Option (String × String) :=
  match dropLit "data:".toList s.toList with
  | none => none
  | some rest =>
    let mime := rest.takeWhile (fun c => c ≠ ';')
    let rest2 := rest.dropWhile (fun c => c ≠ ';')
    if mime = [] then none
    else
      match dropLit ";base64,".toList rest2 with
      | none => none
      | some data =>
        if data = [] then none
        else if data.any isLineTerm then none
        else some (String.mk mime, String.mk data)

/-- GlyphProvider.uploadFont (src/page.ts lines 140-168): reject unsupported
extensions, parse the data URL payload, decode the base64 data group
(Buffer.from with base64), and write the bytes at the file name in the font
root; failures are logged and rethrown (the boolean is false when the call
threw). -/
def uploadFont (w : World) (st : ServiceState) (fileName base64Data : String) :
    Bool × ServiceState :=
  let ext := toLowerStr (extname fileName)
  if SUPPORTED_FORMATS.contains ext then
    match parseDataUrl base64Data with
    | none => (false, st)
    | some (_, base64Content) =>
      let buffer := base64Decode base64Content.toList
      if w.writeOk fileName then (true, { st with fs := aset st.fs fileName buffer })
      else (false, st)
  else (false, st)


/-- Oracle in which every probe fails, every read and stat throws, every
fetch throws, and every write, mkdir, readdir and unlink succeeds. -/
def wNone : World :=
  ⟨fun _ => false, fun _ => none, fun _ => none, true, fun _ => true, true,
    fun _ => true, fun _ => none, 0⟩

/-- Oracle whose fetch returns a ttf response with one zero byte. -/
def wTtf : World := { wNone with http := fun _ => some ⟨"font/ttf", [0]⟩ }

/-- Oracle whose fetch returns a response with an unsupported MIME type. -/
def wHtml : World := { wNone with http := fun _ => some ⟨"text/html", [60]⟩ }

/-- Oracle whose fetch returns a generic octet-stream response. -/
def wOctet : World :=
  { wNone with http := fun _ => some ⟨"application/octet-stream", [7, 8]⟩ }

/-- Oracle in which stat and read succeed on every path. -/
def wDisk : World :=
  { wNone with statRes := fun _ => some (1, false), readRes := fun _ => some [77] }

/-- Oracle at a late clock instant. -/
def wTime : World := { wNone with now := 10000000 }

/-- Fresh state: empty map, sentinel placeholder list, empty directory. -/
def stEmpty : ServiceState := ⟨[], ["无", "无 "], []⟩

/-- State with one candidate font file on disk and a cold cache. -/
def stDiskA : ServiceState := ⟨[], [], [("A.ttf", [77])]⟩

/-- State whose only candidate font file has a different name. -/
def stDiskB : ServiceState := ⟨[], [], [("B.ttf", [1])]⟩

/-- State holding one font under two extensions plus an unrelated font. -/
def stDel : ServiceState := ⟨[], [], [("A.ttf", [1]), ("A.otf", [2]), ("B.ttf", [3])]⟩

/-- Record whose lastAccess is stale relative to wTime. -/
def infoOld : FontInfo := ⟨"A", "d", "ttf", 1, 0⟩

/-- Record whose lastAccess is recent relative to wTime. -/
def infoNew : FontInfo := ⟨"B", "d", "ttf", 1, 9990000⟩

/-- State caching one stale and one fresh record. -/
def stTtl : ServiceState := ⟨[("A", infoOld), ("B", infoNew)], [], []⟩

/-- State after loadSingleFont of the single byte 77 from A.ttf under wDisk. -/
def stLoaded : ServiceState :=
  ⟨[("A", ⟨"A", "data:font/ttf;base64,TQ==", "ttf", 1, 0⟩)], ["A"], []⟩

theorem b64Val_b64Char_fin : ∀ n : Fin 64, b64Val (b64Char n.val) = n.val := by decide

theorem b64Val_b64Char (n : Nat) (h : n < 64) : b64Val (b64Char n) = n :=
  b64Val_b64Char_fin ⟨n, h⟩

theorem b64Char_ne_pad_fin : ∀ n : Fin 64, b64Char n.val ≠ '=' := by decide

theorem b64Char_ne_pad (n : Nat) (h : n < 64) : b64Char n ≠ '=' :=
  b64Char_ne_pad_fin ⟨n, h⟩

theorem b64Char_mem_fin : ∀ n : Fin 64, b64Char n.val ∈ b64Alphabet := by decide

theorem b64Char_mem (n : Nat) (h : n < 64) : b64Char n ∈ b64Alphabet :=
  b64Char_mem_fin ⟨n, h⟩

/-- Decoding inverts encoding on byte lists. -/
theorem base64_roundtrip : ∀ bs : List Nat, (∀ b ∈ bs, b < 256) →
    base64Decode (base64Encode bs) = bs
  | [], _ => rfl
  | [a], h => by
      have ha : a < 256 := h a (by simp)
      simp only [base64Encode, base64Decode]
      rw [if_pos trivial, b64Val_b64Char _ (by omega), b64Val_b64Char _ (by omega)]
      simp only [List.cons.injEq, and_true]
      omega
  | [a, b], h => by
      have ha : a < 256 := h a (by simp)
      have hb : b < 256 := h b (by simp)
      simp only [base64Encode, base64Decode]
      rw [if_neg (b64Char_ne_pad _ (by omega)), if_pos trivial,
        b64Val_b64Char _ (by omega), b64Val_b64Char _ (by omega),
        b64Val_b64Char _ (by omega)]
      simp only [List.cons.injEq, and_true]
      omega
  | a :: b :: c :: rest, h => by
      have ha : a < 256 := h a (by simp)
      have hb : b < 256 := h b (by simp)
      have hc : c < 256 := h c (by simp)
      have ih := base64_roundtrip rest (fun x hx => h x (by simp [hx]))
      simp only [base64Encode]
      rw [show base64Decode (b64Char (a / 4) :: b64Char (a % 4 * 16 + b / 16) ::
          b64Char (b % 16 * 4 + c / 64) :: b64Char (c % 64) ::
          base64Encode rest) =
          (b64Val (b64Char (a / 4)) * 4 + b64Val (b64Char (a % 4 * 16 + b / 16)) / 16) ::
          (b64Val (b64Char (a % 4 * 16 + b / 16)) % 16 * 16 +
            b64Val (b64Char (b % 16 * 4 + c / 64)) / 4) ::
          (b64Val (b64Char (b % 16 * 4 + c / 64)) % 4 * 64 + b64Val (b64Char (c % 64))) ::
          base64Decode (base64Encode rest) from by
        simp only [base64Decode]
        rw [if_neg (b64Char_ne_pad _ (by omega)), if_neg (b64Char_ne_pad _ (by omega))]]
      rw [b64Val_b64Char _ (by omega), b64Val_b64Char _ (by omega),
        b64Val_b64Char _ (by omega), b64Val_b64Char _ (by omega), ih]
      simp only [List.cons.injEq, and_true]
      omega

/-- Every character produced by the encoder on bytes is in the alphabet or is
the padding character. -/
theorem base64Encode_chars : ∀ bs : List Nat, (∀ b ∈ bs, b < 256) →
    ∀ c ∈ base64Encode bs, c ∈ b64Alphabet ∨ c = '='
  | [], _ => by simp [base64Encode]
  | [a], h => by
      have ha : a < 256 := h a (by simp)
      simp only [base64Encode, List.mem_cons, List.not_mem_nil, or_false]
      rintro c (rfl | rfl | rfl | rfl)
      · exact Or.inl (b64Char_mem _ (by omega))
      · exact Or.inl (b64Char_mem _ (by omega))
      · exact Or.inr rfl
      · exact Or.inr rfl
  | [a, b], h => by
      have ha : a < 256 := h a (by simp)
      have hb : b < 256 := h b (by simp)
      simp only [base64Encode, List.mem_cons, List.not_mem_nil, or_false]
      rintro c (rfl | rfl | rfl | rfl)
      · exact Or.inl (b64Char_mem _ (by omega))
      · exact Or.inl (b64Char_mem _ (by omega))
      · exact Or.inl (b64Char_mem _ (by omega))
      · exact Or.inr rfl
  | a :: b :: c :: rest, h => by
      have ha : a < 256 := h a (by simp)
      have hb : b < 256 := h b (by simp)
      have hc : c < 256 := h c (by simp)
      have ih := base64Encode_chars rest (fun x hx => h x (by simp [hx]))
      simp only [base64Encode, List.mem_cons]
      rintro x (rfl | rfl | rfl | rfl | hx)
      · exact Or.inl (b64Char_mem _ (by omega))
      · exact Or.inl (b64Char_mem _ (by omega))
      · exact Or.inl (b64Char_mem _ (by omega))
      · exact Or.inl (b64Char_mem _ (by omega))
      · exact ih x hx

/-- Encoding a nonempty byte list yields a nonempty character list. -/
theorem base64Encode_ne_nil : ∀ bs : List Nat, bs ≠ [] → base64Encode bs ≠ []
  | [], h => absurd rfl h
  | [_], _ => by simp [base64Encode]
  | [_, _], _ => by simp [base64Encode]
  | _ :: _ :: _ :: _, _ => by simp [base64Encode]

/-- No character of the base64 alphabet is a line terminator. -/
theorem alphabet_not_lineterm : ∀ c ∈ b64Alphabet, isLineTerm c = false := by decide

theorem alookup_replace {α : Type} (k : String) (v : α) :
    ∀ m : List (String × α), m.any (fun p => p.1 = k) = true →
      alookup (m.map (fun p => if p.1 = k then (k, v) else p)) k = some v
  | [], h => by simp at h
  | p :: t, h => by
      by_cases hp : p.1 = k
      · rw [List.map_cons, if_pos hp]
        simp [alookup]
      · rw [List.map_cons, if_neg hp]
        have h' : t.any (fun p => p.1 = k) = true := by
          simp only [List.any_cons] at h
          simpa [hp] using h
        simp [alookup, hp, alookup_replace k v t h']

theorem alookup_none_of_any_false {α : Type} (k : String) :
    ∀ m : List (String × α), m.any (fun p => p.1 = k) = false → alookup m k = none
  | [], _ => rfl
  | p :: t, h => by
      simp only [List.any_cons, Bool.or_eq_false_iff] at h
      have hp : ¬ p.1 = k := by simpa using h.1
      simp [alookup, hp, alookup_none_of_any_false k t h.2]

theorem alookup_append {α : Type} (k : String) :
    ∀ m l : List (String × α), alookup m k = none → alookup (m ++ l) k = alookup l k
  | [], l, _ => rfl
  | p :: t, l, h => by
      by_cases hp : p.1 = k
      · simp [alookup, hp] at h
      · rcases p with ⟨a, b⟩
        simp only [alookup, if_neg hp] at h
        simpa only [List.cons_append, alookup, if_neg hp] using alookup_append k t l h

/-- Lookup after insert-or-replace at the same key. -/
theorem alookup_aset_self {α : Type} (m : List (String × α)) (k : String) (v : α) :
    alookup (aset m k v) k = some v := by
  unfold aset
  cases h : m.any (fun p => p.1 = k) with
  | true => simpa [h] using alookup_replace k v m h
  | false =>
    simp only [h, Bool.false_eq_true, if_false]
    rw [alookup_append k m _ (alookup_none_of_any_false k m h)]
    simp [alookup]

theorem alookup_mem {α : Type} (k : String) (v : α) :
    ∀ m : List (String × α), alookup m k = some v → (k, v) ∈ m
  | [], h => by simp [alookup] at h
  | (a, b) :: t, h => by
      by_cases hp : a = k
      · simp only [alookup, if_pos hp] at h
        subst hp
        injection h with h
        subst h
        exact List.mem_cons_self _ _
      · simp only [alookup, if_neg hp] at h
        exact List.mem_cons_of_mem _ (alookup_mem k v t h)

/-- In a map with no duplicate keys, two entries at the same key agree. -/
theorem mem_keys_nodup_uniq {α : Type} :
    ∀ (m : List (String × α)), (m.map Prod.fst).Nodup →
      ∀ (k : String) (v v' : α), (k, v) ∈ m → (k, v') ∈ m → v = v'
  | [], _, k, v, v', h, _ => by simp at h
  | p :: t, hnd, k, v, v', h1, h2 => by
      simp only [List.map_cons, List.nodup_cons] at hnd
      rcases List.mem_cons.mp h1 with e1 | h1t
      · rcases List.mem_cons.mp h2 with e2 | h2t
        · rw [← e1] at e2
          injection e2 with _ e
          exact e.symm
        · exfalso
          apply hnd.1
          rw [show p.1 = k from by rw [← e1]]
          exact List.mem_map_of_mem Prod.fst h2t
      · rcases List.mem_cons.mp h2 with e2 | h2t
        · exfalso
          apply hnd.1
          rw [show p.1 = k from by rw [← e2]]
          exact List.mem_map_of_mem Prod.fst h1t
        · exact mem_keys_nodup_uniq t hnd.2 k v v' h1t h2t

theorem alookup_filter_none {α : Type} (k : String) (q : String × α → Bool) :
    ∀ m : List (String × α), (∀ p ∈ m, p.1 = k → q p = false) →
      alookup (m.filter q) k = none
  | [], _ => rfl
  | p :: t, h => by
      have ht := alookup_filter_none k q t (fun x hx => h x (List.mem_cons_of_mem _ hx))
      by_cases hp : p.1 = k
      · have hq : q p = false := h p (List.mem_cons_self _ _) hp
        simp [List.filter_cons, hq, ht]
      · cases hq : q p
        · simp [List.filter_cons, hq, ht]
        · simp [List.filter_cons, hq, alookup, hp, ht]

theorem alookup_filter_keep {α : Type} (k : String) (q : String × α → Bool) :
    ∀ m : List (String × α), (∀ p ∈ m, p.1 = k → q p = true) →
      alookup (m.filter q) k = alookup m k
  | [], _ => rfl
  | p :: t, h => by
      have ht := alookup_filter_keep k q t (fun x hx => h x (List.mem_cons_of_mem _ hx))
      rcases p with ⟨a, b⟩
      by_cases hp : a = k
      · subst hp
        have hq : q (a, b) = true := h (a, b) (List.mem_cons_self _ _) rfl
        simp [List.filter_cons, hq, alookup]
      · cases hq : q (a, b)
        · simp [List.filter_cons, hq, alookup, hp, ht]
        · simp [List.filter_cons, hq, alookup, hp, ht]

/-- Deleting a list of keys one by one filters out every entry whose key is in
the list. -/
theorem foldl_adelete_eq_filter {α : Type} :
    ∀ (names : List String) (m : List (String × α)),
      names.foldl (fun m n => adelete m n) m =
        m.filter (fun p => decide (p.1 ∉ names))
  | [], m => by simp
  | n :: ns, m => by
      simp only [List.foldl_cons]
      rw [foldl_adelete_eq_filter ns (adelete m n)]
      unfold adelete
      rw [List.filter_filter]
      apply List.filter_congr
      intro p _
      by_cases h1 : p.1 = n <;> by_cases h2 : p.1 ∈ ns <;> simp [h1, h2]

/-- When every access probe fails, the extension probe loop falls through,
leaving the state untouched and tracing exactly the probes. -/
theorem checkFontScan_all_fail (w : World) (fontName : String) (st : ServiceState) :
    ∀ (exts : List String) (tr : List Eff),
      (∀ e ∈ exts, w.accessOk (fontName ++ e) = false) →
      checkFontScan w fontName st tr exts =
        (none, tr ++ exts.map (fun e => Eff.access (fontName ++ e)))
  | [], tr, _ => by simp [checkFontScan]
  | ext :: rest, tr, h => by
      have h1 : w.accessOk (fontName ++ ext) = false := h ext (List.mem_cons_self _ _)
      have ih := checkFontScan_all_fail w fontName st rest
        (tr ++ [Eff.access (fontName ++ ext)])
        (fun e he => h e (List.mem_cons_of_mem _ he))
      simp [checkFontScan, h1, ih]

/-- The download branch either succeeds or returns false with the state it was
given. -/
theorem downloadFont_result (w : World) (fontName : String) (st : ServiceState)
    (tr : List Eff) (downloadUrl : String) :
    (downloadFont w fontName st tr downloadUrl).result = true ∨
    ((downloadFont w fontName st tr downloadUrl).result = false ∧
      (downloadFont w fontName st tr downloadUrl).state = st) := by
  simp only [downloadFont]
  split
  · exact Or.inr ⟨rfl, rfl⟩
  · split
    · exact Or.inr ⟨rfl, rfl⟩
    · split
      · split
        · exact Or.inl rfl
        · exact Or.inr ⟨rfl, rfl⟩
      · exact Or.inr ⟨rfl, rfl⟩

/-- A successful loadSingleFont publishes fontNames as exactly the map keys. -/
theorem loadSingleFont_ok_names (w : World) (st : ServiceState) (tr : List Eff)
    (filePath : String) (st2 : ServiceState) (tr2 : List Eff)
    (h : loadSingleFont w st tr filePath = (.ok st2, tr2)) :
    st2.fontNames = st2.fontMap.map Prod.fst := by
  unfold loadSingleFont at h
  split at h
  · simp at h
  · split at h
    · simp at h
    · injection h with h1 _
      injection h1 with h1
      rw [← h1]

/-- A state produced by the extension probe loop comes from a successful
loadSingleFont, so its fontNames are exactly its map keys. -/
theorem checkFontScan_some_names (w : World) (fontName : String) (st : ServiceState) :
    ∀ (exts : List String) (tr : List Eff) (st2 : ServiceState) (tr2 : List Eff),
      checkFontScan w fontName st tr exts = (some st2, tr2) →
      st2.fontNames = st2.fontMap.map Prod.fst
  | [], tr, st2, tr2, h => by simp [checkFontScan] at h
  | ext :: rest, tr, st2, tr2, h => by
      rw [checkFontScan] at h
      split at h
      · split at h
        · rename_i heq
          injection h with h1 _
          injection h1 with h1
          exact h1 ▸ loadSingleFont_ok_names w st _ _ _ _ heq
        · exact checkFontScan_some_names w fontName st rest _ st2 tr2 h
      · exact checkFontScan_some_names w fontName st rest _ st2 tr2 h

/-- The state returned by the download branch keeps the fontNames it was given
or publishes exactly its map keys. -/
theorem downloadFont_names (w : World) (fontName : String) (st : ServiceState)
    (tr : List Eff) (downloadUrl : String) :
    (downloadFont w fontName st tr downloadUrl).state.fontNames = st.fontNames ∨
    (downloadFont w fontName st tr downloadUrl).state.fontNames =
      (downloadFont w fontName st tr downloadUrl).state.fontMap.map Prod.fst := by
  simp only [downloadFont]
  split
  · exact Or.inl rfl
  · split
    · exact Or.inl rfl
    · split
      · split
        · exact Or.inr rfl
        · exact Or.inl rfl
      · exact Or.inl rfl

/-- C8: for every font name whose trimmed value is the sentinel, checkFont
returns true immediately, with the state unchanged and an empty trace of
filesystem and network primitives (src/index.ts lines 220-222, src/page.ts
lines 585-588). -/
theorem checkFont_sentinel (w : World) (st : ServiceState)
    (fontName downloadUrl : String) (h : jsTrim fontName = "无") :
    checkFont w st fontName downloadUrl = ⟨true, st, []⟩ := by
  simp only [checkFont, if_pos h]

/-- Witness for C8 at the space-suffixed sentinel spelling. -/
theorem checkFont_sentinel_witness :
    checkFont wNone stEmpty "无 " "http://example.com/f.ttf" = ⟨true, stEmpty, []⟩ :=
  checkFont_sentinel wNone stEmpty "无 " "http://example.com/f.ttf" (by decide)

/-- C1: for every oracle behavior of the filesystem and HTTP capability
(probes that pass and then fail to read, failing downloads, and so on),
checkFont returns a boolean, never an exception — every fallible primitive
outcome is handled by the try and catch structure reflected in the
definition — and whenever it returns false the state is exactly the state
before the call. -/
theorem checkFont_no_throw (w : World) (st : ServiceState) (fontName downloadUrl : String) :
    (checkFont w st fontName downloadUrl).result = true ∨
    ((checkFont w st fontName downloadUrl).result = false ∧
      (checkFont w st fontName downloadUrl).state = st) := by
  simp only [checkFont]
  split
  · exact Or.inl rfl
  · split
    · exact Or.inl rfl
    · split
      · exact Or.inl rfl
      · exact downloadFont_result w fontName st _ downloadUrl

/-- C4: for a non-sentinel, uncached name with no matching file on disk, a
fetch that throws makes checkFont return false with the state exactly as
before the call and no write primitive in the trace (src/index.ts lines
247-292). -/
theorem checkFont_fetch_error (w : World) (st : ServiceState)
    (fontName downloadUrl : String)
    (h1 : jsTrim fontName ≠ "无")
    (h2 : alookup st.fontMap fontName = none)
    (h3 : ∀ ext ∈ SUPPORTED_FORMATS, w.accessOk (fontName ++ ext) = false)
    (h4 : w.http downloadUrl = none) :
    (checkFont w st fontName downloadUrl).result = false ∧
    (checkFont w st fontName downloadUrl).state = st ∧
    ∀ p, Eff.write p ∉ (checkFont w st fontName downloadUrl).trace := by
  have hscan := checkFontScan_all_fail w fontName st SUPPORTED_FORMATS [] h3
  simp only [checkFont, if_neg h1, h2, hscan, downloadFont, h4]
  refine ⟨trivial, trivial, ?_⟩
  intro p hp
  simp only [List.nil_append, List.mem_append, List.mem_map,
    List.mem_singleton] at hp
  rcases hp with ⟨e, _, heq⟩ | heq <;> simp at heq

/-- Witness for C4: uncached name, empty directory, fetch throws. -/
theorem checkFont_fetch_error_witness :
    (checkFont wNone stEmpty "A" "http://x/f.ttf").result = false ∧
    (checkFont wNone stEmpty "A" "http://x/f.ttf").state = stEmpty ∧
    ∀ p, Eff.write p ∉ (checkFont wNone stEmpty "A" "http://x/f.ttf").trace :=
  checkFont_fetch_error wNone stEmpty "A" "http://x/f.ttf"
    (by decide) rfl (by decide) rfl

/-- C5: for a non-sentinel, uncached name with no matching file on disk, a
fetch whose MIME type is not a key of the extension-inference table makes
checkFont return false with the state exactly as before the call and no write
primitive in the trace (src/index.ts lines 249-267 and 329-343). -/
theorem checkFont_unknown_mime (w : World) (st : ServiceState)
    (fontName downloadUrl : String) (response : HttpResponse)
    (h1 : jsTrim fontName ≠ "无")
    (h2 : alookup st.fontMap fontName = none)
    (h3 : ∀ ext ∈ SUPPORTED_FORMATS, w.accessOk (fontName ++ ext) = false)
    (h4 : w.http downloadUrl = some response)
    (h5 : getExtensionFromMimeType response.type = none) :
    (checkFont w st fontName downloadUrl).result = false ∧
    (checkFont w st fontName downloadUrl).state = st ∧
    ∀ p, Eff.write p ∉ (checkFont w st fontName downloadUrl).trace := by
  have hscan := checkFontScan_all_fail w fontName st SUPPORTED_FORMATS [] h3
  simp only [checkFont, if_neg h1, h2, hscan, downloadFont, h4, h5]
  refine ⟨trivial, trivial, ?_⟩
  intro p hp
  simp only [List.nil_append, List.mem_append, List.mem_map,
    List.mem_singleton] at hp
  rcases hp with ⟨e, _, heq⟩ | heq <;> simp at heq

/-- Witness for C5 at a text response. -/
theorem checkFont_unknown_mime_witness :
    (checkFont wHtml stEmpty "A" "http://x/f").result = false ∧
    (checkFont wHtml stEmpty "A" "http://x/f").state = stEmpty ∧
    ∀ p, Eff.write p ∉ (checkFont wHtml stEmpty "A" "http://x/f").trace :=
  checkFont_unknown_mime wHtml stEmpty "A" "http://x/f" ⟨"text/html", [60]⟩
    (by decide) rfl (by decide) rfl rfl

/-- C10: for a non-sentinel, uncached name with no matching file on disk, a
fetch whose MIME type is the generic octet-stream is not treated as unknown:
checkFont infers the ttf extension, writes the body at the name with the ttf
extension, caches a record with format ttf, and returns true (src/index.ts
lines 244-267 and 329-343). -/
theorem checkFont_octet_stream (w : World) (st : ServiceState)
    (fontName downloadUrl : String) (bytes : List Nat)
    (h1 : jsTrim fontName ≠ "无")
    (h2 : alookup st.fontMap fontName = none)
    (h3 : ∀ ext ∈ SUPPORTED_FORMATS, w.accessOk (fontName ++ ext) = false)
    (h4 : w.http downloadUrl = some ⟨"application/octet-stream", bytes⟩)
    (h5 : w.mkdirOk = true)
    (h6 : w.writeOk (fontName ++ ".ttf") = true) :
    (checkFont w st fontName downloadUrl).result = true ∧
    alookup (checkFont w st fontName downloadUrl).state.fs (fontName ++ ".ttf") =
      some bytes ∧
    alookup (checkFont w st fontName downloadUrl).state.fontMap fontName =
      some ⟨fontName, "data:application/octet-stream;base64," ++ base64String bytes,
        "ttf", bytes.length, w.now⟩ := by
  have hscan := checkFontScan_all_fail w fontName st SUPPORTED_FORMATS [] h3
  have hext : getExtensionFromMimeType "application/octet-stream" = some ".ttf" := rfl
  have hdrop : (".ttf").drop 1 = "ttf" := rfl
  simp only [checkFont, if_neg h1, h2, hscan, downloadFont, h4, hext, h5, h6,
    if_true, hdrop]
  exact ⟨trivial, alookup_aset_self _ _ _, alookup_aset_self _ _ _⟩

/-- Witness for C10 at a two-byte octet-stream response. -/
theorem checkFont_octet_stream_witness :
    (checkFont wOctet stEmpty "A" "http://x/f").result = true ∧
    alookup (checkFont wOctet stEmpty "A" "http://x/f").state.fs "A.ttf" =
      some [7, 8] ∧
    alookup (checkFont wOctet stEmpty "A" "http://x/f").state.fontMap "A" =
      some ⟨"A", "data:application/octet-stream;base64," ++ base64String [7, 8],
        "ttf", 2, 0⟩ :=
  checkFont_octet_stream wOctet stEmpty "A" "http://x/f" [7, 8]
    (by decide) rfl (by decide) rfl rfl rfl

/-- C2 counterexample: a successful download inside checkFont rewrites
fontNames to the bare map keys, so the published list starts with the
downloaded name rather than the sentinel (src/index.ts line 285, src/page.ts
line 655 assign the raw key array with no sentinel prefix). -/
theorem checkFont_download_drops_sentinel :
    (checkFont wTtf stEmpty "A" "http://x/f").result = true ∧
    (checkFont wTtf stEmpty "A" "http://x/f").state.fontNames = ["A"] ∧
    (checkFont wTtf stEmpty "A" "http://x/f").state.fontNames.head? ≠ some "无" := by
  refine ⟨rfl, rfl, by decide⟩

/-- C2 amended: the full directory scan always publishes a list headed by the
sentinel, and exactly the two sentinel placeholders when no candidate font was
loaded; but the rewrites done by a successful download in checkFont and by
loadSingleFont publish exactly the map keys with no sentinel prefix (checkFont
otherwise leaves the published list unchanged). -/
theorem fontNames_sentinel_amended :
    (∀ w st, ((loadFonts w st).fontNames).head? = some "无" ∧
      ((loadFonts w st).fontMap = [] → (loadFonts w st).fontNames = ["无", "无 "])) ∧
    (∀ w st fontName downloadUrl,
      (checkFont w st fontName downloadUrl).state.fontNames = st.fontNames ∨
      (checkFont w st fontName downloadUrl).state.fontNames =
        (checkFont w st fontName downloadUrl).state.fontMap.map Prod.fst) ∧
    (∀ w st tr filePath st2 tr2, loadSingleFont w st tr filePath = (.ok st2, tr2) →
      st2.fontNames = st2.fontMap.map Prod.fst) := by
  refine ⟨?_, ?_, ?_⟩
  · intro w st
    simp only [loadFonts, finalizeNames]
    constructor
    · split
      · split <;> rfl
      · rfl
    · intro hm
      rw [show (if w.readdirOk then scanFonts w [] (st.fs.map Prod.fst) else []) = []
        from hm]
      rfl
  · intro w st fontName downloadUrl
    simp only [checkFont]
    split
    · exact Or.inl rfl
    · split
      · exact Or.inl rfl
      · split
        · rename_i st2 tr heq
          exact Or.inr (checkFontScan_some_names w fontName st SUPPORTED_FORMATS
            [] st2 tr heq)
        · exact downloadFont_names w fontName st _ downloadUrl
  · intro w st tr filePath st2 tr2 h
    exact loadSingleFont_ok_names w st tr filePath st2 tr2 h

/-- Witness for the amended C2: the scan on an empty directory publishes the
sentinel pair, and a state produced by a successful loadSingleFont publishes
exactly its map keys. -/
theorem fontNames_sentinel_amended_witness :
    (loadFonts wNone stEmpty).fontNames = ["无", "无 "] ∧
    stLoaded.fontNames = stLoaded.fontMap.map Prod.fst := by
  constructor
  · exact (fontNames_sentinel_amended.1 wNone stEmpty).2 (by decide)
  · exact fontNames_sentinel_amended.2.2 wDisk stEmpty [] "A.ttf" stLoaded
      [Eff.stat "A.ttf", Eff.read "A.ttf"] rfl

/-- The synchronous scan of getFontDataUrl falls through to absent with an
unchanged state when no directory entry matches the name with a supported
extension. -/
theorem getFontDataUrlScan_none (w : World) (st : ServiceState) (name : String) :
    ∀ files : List String,
      (∀ file ∈ files, ¬(basenameExt file (toLowerStr (extname file)) = name ∧
        SUPPORTED_FORMATS.contains (toLowerStr (extname file)) = true)) →
      getFontDataUrlScan w st name files = (none, st)
  | [], _ => rfl
  | file :: rest, h => by
      have hf := h file (List.mem_cons_self _ _)
      have ih := getFontDataUrlScan_none w st name rest
        (fun x hx => h x (List.mem_cons_of_mem _ hx))
      simp only [getFontDataUrlScan, if_neg hf]
      exact ih

/-- C3 counterexample: for a name absent from the font map but matched by a
readable file on disk, getFontDataUrl does not return absent and does not
leave the font map unchanged — it loads the file into the cache and returns
its data URL (src/page.ts lines 527-568). -/
theorem getFontDataUrl_miss_mutates :
    (getFontDataUrl wDisk stDiskA "A").1 =
      some "data:font/ttf;base64,TQ==" ∧
    (getFontDataUrl wDisk stDiskA "A").2.fontMap ≠ stDiskA.fontMap := by
  refine ⟨rfl, by decide⟩

/-- C3 amended: getFontInfo on a miss returns absent and leaves the state
unchanged; getFontDataUrl on a miss attempts a synchronous disk load, and
returns absent with the state unchanged when no directory entry matches the
name with a supported extension (src/page.ts lines 503-510 and 518-576). -/
theorem cache_read_miss_amended :
    (∀ w st name, alookup st.fontMap name = none →
      getFontInfo w st name = (none, st)) ∧
    (∀ w st name, alookup st.fontMap name = none →
      (∀ file ∈ st.fs.map Prod.fst,
        ¬(basenameExt file (toLowerStr (extname file)) = name ∧
          SUPPORTED_FORMATS.contains (toLowerStr (extname file)) = true)) →
      getFontDataUrl w st name = (none, st)) := by
  constructor
  · intro w st name h
    simp [getFontInfo, h]
  · intro w st name h hf
    simp only [getFontDataUrl, h]
    split
    · exact getFontDataUrlScan_none w st name (st.fs.map Prod.fst) hf
    · rfl

/-- Witness for the amended C3: a miss on an empty cache with a non-matching
directory entry leaves both reads absent and the state untouched. -/
theorem cache_read_miss_amended_witness :
    getFontInfo wNone stDiskB "X" = (none, stDiskB) ∧
    getFontDataUrl wDisk stDiskB "X" = (none, stDiskB) := by
  constructor
  · exact cache_read_miss_amended.1 wNone stDiskB "X" rfl
  · exact cache_read_miss_amended.2 wDisk stDiskB "X" rfl (by decide)

/-- C6: after the TTL sweep at the oracle clock with fontTTL minutes, a cached
record is removed exactly when its lastAccess is older than the TTL: a stale
record disappears (and a subsequent getFontInfo returns absent), while a fresh
record survives with all its fields unchanged (src/page.ts lines 367-384).
The no-duplicate-keys hypothesis is the JS Map invariant. -/
theorem cleanupUnusedFonts_spec (w : World) (fontTTL : Nat) (st : ServiceState)
    (hnd : (st.fontMap.map Prod.fst).Nodup) (name : String) (info : FontInfo)
    (hm : alookup st.fontMap name = some info) :
    (((w.now : Int) - (info.lastAccess : Int) > (fontTTL : Int) * 60 * 1000) →
      alookup (cleanupUnusedFonts w fontTTL st).fontMap name = none ∧
      (getFontInfo w (cleanupUnusedFonts w fontTTL st) name).1 = none) ∧
    (¬((w.now : Int) - (info.lastAccess : Int) > (fontTTL : Int) * 60 * 1000) →
      alookup (cleanupUnusedFonts w fontTTL st).fontMap name = some info) := by
  have hmem : (name, info) ∈ st.fontMap := alookup_mem name info st.fontMap hm
  have hmap : (cleanupUnusedFonts w fontTTL st).fontMap =
      st.fontMap.filter (fun p => decide (p.1 ∉ ((st.fontMap.filter
        (fun p => (w.now : Int) - (p.2.lastAccess : Int) >
          (fontTTL : Int) * 60 * 1000)).map Prod.fst))) := by
    simp only [cleanupUnusedFonts]
    exact foldl_adelete_eq_filter _ _
  constructor
  · intro hstale
    have hdel : name ∈ (st.fontMap.filter
        (fun p => (w.now : Int) - (p.2.lastAccess : Int) >
          (fontTTL : Int) * 60 * 1000)).map Prod.fst := by
      have h1 : (name, info) ∈ st.fontMap.filter
          (fun p => (w.now : Int) - (p.2.lastAccess : Int) >
            (fontTTL : Int) * 60 * 1000) := by
        rw [List.mem_filter]
        exact ⟨hmem, by simpa using hstale⟩
      simpa using List.mem_map_of_mem Prod.fst h1
    have hnone : alookup (cleanupUnusedFonts w fontTTL st).fontMap name = none := by
      rw [hmap]
      apply alookup_filter_none
      intro p hp he
      simp only [decide_eq_false_iff_not, not_not]
      rw [he]
      exact hdel
    refine ⟨hnone, ?_⟩
    simp [getFontInfo, hnone]
  · intro hfresh
    rw [hmap]
    rw [alookup_filter_keep]
    · exact hm
    · intro p hp he
      simp only [decide_eq_true_eq]
      intro hcon
      rcases List.mem_map.mp hcon with ⟨q, hq, hqe⟩
      rw [List.mem_filter] at hq
      have hqm : (q.1, q.2) ∈ st.fontMap := hq.1
      rw [hqe, he] at hqm
      have : q.2 = info := mem_keys_nodup_uniq st.fontMap hnd name q.2 info hqm hmem
      rw [this] at hq
      exact hfresh (by simpa using hq.2)

/-- Witness for C6 under a one-minute TTL: the stale record is swept and
unreadable afterwards, the fresh record survives unchanged. -/
theorem cleanupUnusedFonts_witness :
    (alookup (cleanupUnusedFonts wTime 1 stTtl).fontMap "A" = none ∧
      (getFontInfo wTime (cleanupUnusedFonts wTime 1 stTtl) "A").1 = none) ∧
    alookup (cleanupUnusedFonts wTime 1 stTtl).fontMap "B" = some infoNew := by
  constructor
  · exact (cleanupUnusedFonts_spec wTime 1 stTtl (by decide) "A" infoOld rfl).1
      (by decide)
  · exact (cleanupUnusedFonts_spec wTime 1 stTtl (by decide) "B" infoNew rfl).2
      (by decide)

/-- When every unlink succeeds, the unlink loop removes exactly the listed
files. -/
theorem unlinkAll_ok (w : World) :
    ∀ (l : List String) (fs : Fs), (∀ f ∈ l, w.unlinkOk f = true) →
      unlinkAll w fs l = (true, fs.filter (fun p => decide (p.1 ∉ l)))
  | [], fs, _ => by simp [unlinkAll]
  | f :: rest, fs, h => by
      have hf := h f (List.mem_cons_self _ _)
      simp only [unlinkAll, hf, if_true]
      rw [unlinkAll_ok w rest _ (fun g hg => h g (List.mem_cons_of_mem _ hg))]
      congr 1
      rw [List.filter_filter]
      apply List.filter_congr
      intro p _
      by_cases h1 : p.1 = f <;> by_cases h2 : p.1 ∈ rest <;> simp [h1, h2]

/-- When the first unlink failure occurs, the loop stops having removed
exactly the files before it. -/
theorem unlinkAll_fail (w : World) :
    ∀ (pre : List String) (f : String) (post : List String) (fs : Fs),
      (∀ g ∈ pre, w.unlinkOk g = true) → w.unlinkOk f = false →
      unlinkAll w fs (pre ++ f :: post) =
        (false, fs.filter (fun p => decide (p.1 ∉ pre)))
  | [], f, post, fs, _, hf => by simp [unlinkAll, hf]
  | g :: pre, f, post, fs, h, hf => by
      have hg := h g (List.mem_cons_self _ _)
      simp only [List.cons_append, unlinkAll, hg, if_true]
      rw [show pre.append (f :: post) = pre ++ f :: post from rfl,
        unlinkAll_fail w pre f post _
          (fun x hx => h x (List.mem_cons_of_mem _ hx)) hf]
      congr 1
      rw [List.filter_filter]
      apply List.filter_congr
      intro p _
      by_cases h1 : p.1 = g <;> by_cases h2 : p.1 ∈ pre <;> simp [h1, h2]

/-- C7: deleteFont removes exactly the files of the font root whose lower-cased
extension is supported and whose stripped base name equals the requested name
(so both A.ttf and A.otf are removed by deleting A); when an unlink throws,
the error propagates with exactly the earlier matching files removed
(src/page.ts lines 115-137). -/
theorem deleteFont_spec (w : World) (st : ServiceState) (fontName : String)
    (hrd : w.readdirOk = true) :
    ((∀ f ∈ (st.fs.map Prod.fst).filter (fontFileMatches fontName),
        w.unlinkOk f = true) →
      deleteFont w st fontName =
        (true,
          { st with fs := st.fs.filter (fun p => !(fontFileMatches fontName p.1)) })) ∧
    (∀ pre f post,
      (st.fs.map Prod.fst).filter (fontFileMatches fontName) = pre ++ f :: post →
      (∀ g ∈ pre, w.unlinkOk g = true) → w.unlinkOk f = false →
      deleteFont w st fontName =
        (false, { st with fs := st.fs.filter (fun p => decide (p.1 ∉ pre)) })) := by
  constructor
  · intro hall
    simp only [deleteFont, hrd, if_true]
    rw [unlinkAll_ok w _ _ hall]
    have hfe : st.fs.filter (fun p => decide (p.1 ∉
        (st.fs.map Prod.fst).filter (fontFileMatches fontName))) =
        st.fs.filter (fun p => !(fontFileMatches fontName p.1)) := by
      apply List.filter_congr
      intro p hp
      have hkey : p.1 ∈ st.fs.map Prod.fst := List.mem_map_of_mem Prod.fst hp
      by_cases hm : fontFileMatches fontName p.1 = true
      · have hin : p.1 ∈ (st.fs.map Prod.fst).filter (fontFileMatches fontName) := by
          rw [List.mem_filter]
          exact ⟨hkey, hm⟩
        simp [hin, hm]
      · have hout : p.1 ∉ (st.fs.map Prod.fst).filter (fontFileMatches fontName) := by
          intro hc
          rw [List.mem_filter] at hc
          exact hm hc.2
        simp [hout, Bool.eq_false_iff.mpr hm]
    rw [hfe]
  · intro pre f post hsplit hpre hf
    simp only [deleteFont, hrd, if_true]
    rw [hsplit, unlinkAll_fail w pre f post st.fs hpre hf]

/-- Witness for C7: deleting A when both A.ttf and A.otf exist removes both
files and keeps the unrelated B.ttf. -/
theorem deleteFont_witness :
    deleteFont wNone stDel "A" = (true, { stDel with fs := [("B.ttf", [3])] }) := by
  have h := (deleteFont_spec wNone stDel "A" rfl).1 (by decide)
  rw [h]
  decide

/-- The upload payload parse on a well-formed data URL whose data group is the
given character list. -/
theorem parseDataUrl_payload (enc : List Char) :
    parseDataUrl ("data:font/ttf;base64," ++ String.mk enc) =
      (if enc = [] then none
       else if enc.any isLineTerm then none
       else some ("font/ttf", String.mk enc)) := rfl

/-- C9 counterexample: uploading the base64 payload of the empty byte sequence
fails — the payload regular expression requires a nonempty data group, so
uploadFont throws instead of writing an empty file (src/page.ts lines
151-154). -/
theorem uploadFont_empty_payload_fails :
    uploadFont wNone stEmpty "X.ttf"
      ("data:font/ttf;base64," ++ base64String []) = (false, stEmpty) := rfl

/-- C9 amended: for every nonempty byte sequence, uploading its base64 data
URL payload under the ttf file name succeeds and the file stored at that name
is exactly the byte sequence — the written buffer is the base64 decoding of
the payload data group (src/page.ts lines 140-168). -/
theorem uploadFont_roundtrip (bytes : List Nat) (hne : bytes ≠ [])
    (hb : ∀ b ∈ bytes, b < 256) (w : World) (st : ServiceState)
    (hw : w.writeOk "X.ttf" = true) :
    (uploadFont w st "X.ttf" ("data:font/ttf;base64," ++ base64String bytes)).1 =
      true ∧
    alookup (uploadFont w st "X.ttf"
      ("data:font/ttf;base64," ++ base64String bytes)).2.fs "X.ttf" = some bytes := by
  have hterm : (base64Encode bytes).any isLineTerm = false := by
    rw [List.any_eq_false]
    intro c hc
    rcases base64Encode_chars bytes hb c hc with h | rfl
    · simp [alphabet_not_lineterm c h]
    · decide
  have hparse : parseDataUrl ("data:font/ttf;base64," ++ base64String bytes) =
      some ("font/ttf", String.mk (base64Encode bytes)) := by
    rw [show base64String bytes = String.mk (base64Encode bytes) from rfl,
      parseDataUrl_payload, if_neg (base64Encode_ne_nil bytes hne)]
    simp [hterm]
  have hdec : base64Decode (String.mk (base64Encode bytes)).toList = bytes := by
    rw [show (String.mk (base64Encode bytes)).toList = base64Encode bytes from rfl,
      base64_roundtrip bytes hb]
  have hc : SUPPORTED_FORMATS.contains (toLowerStr (extname "X.ttf")) = true := by
    decide
  simp only [uploadFont, hc, if_true, hparse, hdec, hw]
  exact ⟨trivial, alookup_aset_self _ _ _⟩

/-- Witness for the amended C9 at a three-byte file. -/
theorem uploadFont_roundtrip_witness :
    (uploadFont wNone stEmpty "X.ttf"
      ("data:font/ttf;base64," ++ base64String [1, 2, 3])).1 = true ∧
    alookup (uploadFont wNone stEmpty "X.ttf"
      ("data:font/ttf;base64," ++ base64String [1, 2, 3])).2.fs "X.ttf" =
      some [1, 2, 3] :=
  uploadFont_roundtrip [1, 2, 3] (by decide) (by decide) wNone stEmpty rfl

end Glyph
